import Mathlib

/-!
Verification development for the JSON log RAG pipeline
(`app.py` upload/ingest + retrieval handlers, `agent.py` analysis agent).

The Python sources are shallowly embedded as total Lean functions:

* JSON values are modelled by the inductive type `Json` (numbers are
  modelled as integers; floating-point numbers are outside the model).
* `json.dumps` with its default settings (separators `", "` and `": "`,
  `ensure_ascii=True`) is modelled by `serialize`; `json.dumps(..., indent=2)`
  by `serializeIndent`; `json.loads` by `parse`.
* External services (OpenAI embeddings, ChromaDB, the LLM behind
  `pydantic_ai.Agent.run_sync`) are passed in as explicit function
  parameters; a call that raises in Python is modelled by `Except.error`.
* `os.environ` is modelled by an explicit environment `Env` threaded
  through `analyze_logs_with_agent`.
-/

/-- A JSON value as produced by `json.load`.  Numbers are restricted to
integers: the repository only round-trips values through `json.dumps` /
`json.loads`, and floating-point behaviour is outside the model. -/
inductive Json where
  | null : Json
  | bool (b : Bool) : Json
  | num (n : Int) : Json
  | str (s : String) : Json
  | arr (elems : List Json) : Json
  | obj (members : List (String × Json)) : Json
deriving Repr

/-- The `langchain.schema.Document` payload stored in the vector store.
The source only ever writes metadata of the shape `{"index": i}`; metadata
is modelled as a key/value list. -/
structure Document where
  page_content : String
  metadata : List (String × Json)
deriving Repr

/-- The digit character for `d < 10` (code 48 + d). -/
def digitCh (d : Nat) : Char := Char.ofNat (48 + d)

/-- Fuel-indexed body of `natChars`; `fuel > n` is always sufficient. -/
def natCharsAux : Nat → Nat → List Char
  | 0, _ => []
  | fuel + 1, n =>
      if n < 10 then [digitCh n]
      else natCharsAux fuel (n / 10) ++ [digitCh (n % 10)]

/-- Decimal digits of a natural number, most significant first
(Python `repr` of a nonnegative int). -/
def natChars (n : Nat) : List Char := natCharsAux (n + 1) n

/-- Python `repr` of an int: optional minus sign followed by decimal digits. -/
def intChars (i : Int) : List Char :=
  if i < 0 then '-' :: natChars i.natAbs else natChars i.toNat

/-- Lower-case hexadecimal digit character for `n < 16`. -/
def hexDigitChar (n : Nat) : Char :=
  Char.ofNat (if n < 10 then 48 + n else 87 + n)

/-- The `\uXXXX` escape of a code point `n < 0x10000`, as emitted by
`json.dumps` with `ensure_ascii=True`. -/
def uEscape (n : Nat) : List Char :=
  ['\\', 'u', hexDigitChar (n / 4096), hexDigitChar (n / 256 % 16),
   hexDigitChar (n / 16 % 16), hexDigitChar (n % 16)]

/-- How `json.dumps` (with `ensure_ascii=True`) renders one character of a
string: short escapes for the two delimiters and the common control
characters, `\uXXXX` for other control and non-ASCII characters (astral
code points become a surrogate pair), and the character itself otherwise. -/
def escapeChar (c : Char) : List Char :=
  if c = '\"' then ['\\', '\"']
  else if c = '\\' then ['\\', '\\']
  else if c = '\n' then ['\\', 'n']
  else if c = '\t' then ['\\', 't']
  else if c = '\r' then ['\\', 'r']
  else if c.toNat = 8 then ['\\', 'b']
  else if c.toNat = 12 then ['\\', 'f']
  else if c.toNat < 32 then uEscape c.toNat
  else if c.toNat < 127 then [c]
  else if c.toNat < 65536 then uEscape c.toNat
  else uEscape (55296 + (c.toNat - 65536) / 1024) ++
       uEscape (56320 + (c.toNat - 65536) % 1024)

/-- The `json.dumps` rendering of a string: quote, escaped characters, quote. -/
def serializeStringChars (s : String) : List Char :=
  '\"' :: (s.data.flatMap escapeChar) ++ ['\"']

mutual

/-- Model of `json.dumps(x)` with default settings, as a character list.
Default separators are `", "` between items and `": "` after keys. -/
def serializeChars : Json → List Char
  | .null => 'n' :: 'u' :: 'l' :: 'l' :: []
  | .bool true => 't' :: 'r' :: 'u' :: 'e' :: []
  | .bool false => 'f' :: 'a' :: 'l' :: 's' :: 'e' :: []
  | .num i => intChars i
  | .str s => serializeStringChars s
  | .arr xs => '[' :: serializeList xs ++ [']']
  | .obj ms => '\x7b' :: serializeMembers ms ++ ['\x7d']

/-- Array elements joined by `", "`. -/
def serializeList : List Json → List Char
  | [] => []
  | [x] => serializeChars x
  | x :: y :: xs => serializeChars x ++ ',' :: ' ' :: serializeList (y :: xs)

/-- Object members, each `"key": value`, joined by `", "`. -/
def serializeMembers : List (String × Json) → List Char
  | [] => []
  | [m] => serializeStringChars m.1 ++ ':' :: ' ' :: serializeChars m.2
  | m :: m2 :: ms =>
      serializeStringChars m.1 ++ ':' :: ' ' :: serializeChars m.2 ++
      ',' :: ' ' :: serializeMembers (m2 :: ms)

end

/-- Model of `json.dumps(x)` with default settings (the exact call on line 53 of
`app.py`: `text_content = json.dumps(log_entry)`). -/
def serialize (x : Json) : String := String.mk (serializeChars x)

/-- ASCII decimal digit test. -/
def isDigitB (c : Char) : Bool := 48 ≤ c.toNat && c.toNat ≤ 57

/-- JSON whitespace (the characters `json.loads` skips between tokens). -/
def isWsB (c : Char) : Bool := c == ' ' || c == '\n' || c == '\t' || c == '\r'

/-- Drop leading JSON whitespace. -/
def skipWs : List Char → List Char
  | [] => []
  | c :: l => if isWsB c then skipWs l else c :: l

/-- Consume an expected literal character sequence. -/
def expectChars : List Char → List Char → Option (List Char)
  | [], l => some l
  | e :: es, c :: l => if c = e then expectChars es l else none
  | _ :: _, [] => none

/-- Value of one hexadecimal digit character. -/
def hexVal (c : Char) : Option Nat :=
  if 48 ≤ c.toNat ∧ c.toNat ≤ 57 then some (c.toNat - 48)
  else if 97 ≤ c.toNat ∧ c.toNat ≤ 102 then some (c.toNat - 87)
  else if 65 ≤ c.toNat ∧ c.toNat ≤ 70 then some (c.toNat - 55)
  else none

/-- Value of a four-hex-digit group (as in `\uXXXX`). -/
def hex4 (a b c d : Char) : Option Nat :=
  match hexVal a, hexVal b, hexVal c, hexVal d with
  | some w, some x, some y, some z => some (4096 * w + 256 * x + 16 * y + z)
  | _, _, _, _ => none

/-- Interpret the value `n` of a `\uXXXX` group, per `json.loads`: a high
surrogate must be followed by a `\uXXXX` low surrogate (the pair is
recombined into one code point), a lone low surrogate is rejected (Lean
`Char` cannot carry it; it never occurs in output of the serializer), and
any other value is the code point itself. -/
def decodeU (n : Nat) (rest3 : List Char) : Option (Char × List Char) :=
  if 55296 ≤ n ∧ n < 56320 then
    match rest3 with
    | s1 :: s2 :: a2 :: b2 :: c3 :: d2 :: rest4 =>
      if s1 = '\\' ∧ s2 = 'u' then
        match hex4 a2 b2 c3 d2 with
        | none => none
        | some m =>
          if 56320 ≤ m ∧ m < 57344 then
            some (Char.ofNat (65536 + (n - 55296) * 1024 + (m - 56320)), rest4)
          else none
      else none
    | _ => none
  else if 56320 ≤ n ∧ n < 57344 then none
  else some (Char.ofNat n, rest3)

/-- Decode one escape sequence of a JSON string (the input starts right
after the backslash), per `json.loads`: the short escapes and `\uXXXX`
handled by `decodeU`.  Returns the decoded character and the remaining
input. -/
def decodeEscape : List Char → Option (Char × List Char)
  | [] => none
  | e :: rest2 =>
    if e = '\"' then some ('\"', rest2)
    else if e = '\\' then some ('\\', rest2)
    else if e = '/' then some ('/', rest2)
    else if e = 'n' then some ('\n', rest2)
    else if e = 't' then some ('\t', rest2)
    else if e = 'r' then some ('\r', rest2)
    else if e = 'b' then some (Char.ofNat 8, rest2)
    else if e = 'f' then some (Char.ofNat 12, rest2)
    else if e = 'u' then
      match rest2 with
      | a :: b :: c2 :: d :: rest3 =>
        match hex4 a b c2 d with
        | none => none
        | some n => decodeU n rest3
      | _ => none
    else none

/-- Fuel-indexed body of a JSON string after the opening quote, per
`json.loads` in strict mode: raw control characters are rejected, escapes
are decoded by `decodeEscape`, and the closing quote ends the string.
Each recursion step consumes at least one input character, so fuel equal
to the input length is always sufficient. -/
def parseStringBodyAux : Nat → List Char → Option (List Char × List Char)
  | 0, _ => none
  | fuel + 1, l =>
    match l with
    | [] => none
    | c :: rest =>
      if c = '\"' then some ([], rest)
      else if c = '\\' then
        match decodeEscape rest with
        | none => none
        | some (d, rest2) => (parseStringBodyAux fuel rest2).map (fun p => (d :: p.1, p.2))
      else if c.toNat < 32 then none
      else (parseStringBodyAux fuel rest).map (fun p => (c :: p.1, p.2))

/-- Body of a JSON string after the opening quote; returns the decoded
characters and the input after the closing quote. -/
def parseStringBody (l : List Char) : Option (List Char × List Char) :=
  parseStringBodyAux l.length l

/-- Numeric value of a most-significant-first digit-character list. -/
def digitsVal (ds : List Char) : Nat :=
  ds.foldl (fun acc c => acc * 10 + (c.toNat - 48)) 0

/-- Parse a natural-number literal: one or more digits, no leading zero
(the JSON grammar rejects `01`). -/
def parseNatNum (l : List Char) : Option (Nat × List Char) :=
  if (l.takeWhile isDigitB).isEmpty then none
  else if 1 < (l.takeWhile isDigitB).length ∧ (l.takeWhile isDigitB).head? = some '0' then none
  else some (digitsVal (l.takeWhile isDigitB), l.dropWhile isDigitB)

/-- Parse an integer literal (floating-point syntax is outside the model:
a following `.` or exponent is left unconsumed and makes the enclosing
parse fail, where `json.loads` would build a float). -/
def parseNumber (l : List Char) : Option (Int × List Char) :=
  match l with
  | [] => none
  | c :: rest =>
    if c = '-' then (parseNatNum rest).map (fun p => (-(p.1 : Int), p.2))
    else (parseNatNum l).map (fun p => ((p.1 : Int), p.2))

/-- Python `dict` update `d[k] = v`: replace the value at an existing key
(keeping its position) or append a fresh pair. -/
def insertPair (acc : List (String × Json)) (k : String) (v : Json) : List (String × Json) :=
  if acc.any (fun p => p.1 == k) then acc.map (fun p => if p.1 == k then (p.1, v) else p)
  else acc ++ [(k, v)]

/-- Build a Python `dict` from parsed members: later duplicate keys win,
first occurrence fixes the position (`json.loads` object semantics). -/
def fromPairs (ms : List (String × Json)) : List (String × Json) :=
  ms.foldl (fun acc m => insertPair acc m.1 m.2) []

mutual

/-- Fuel-indexed recursive-descent JSON value parser modelling
`json.loads`.  Fuel `length + 1` is always sufficient for the
serializer's output (see `parse_serializeChars`). -/
def parseVal : Nat → List Char → Option (Json × List Char)
  | 0, _ => none
  | fuel + 1, l =>
    match skipWs l with
    | [] => none
    | c :: rest =>
      if c = 'n' then (expectChars ['u', 'l', 'l'] rest).map (fun r => (Json.null, r))
      else if c = 't' then (expectChars ['r', 'u', 'e'] rest).map (fun r => (Json.bool true, r))
      else if c = 'f' then (expectChars ['a', 'l', 's', 'e'] rest).map (fun r => (Json.bool false, r))
      else if c = '\"' then
        (parseStringBody rest).map (fun p => (Json.str (String.mk p.1), p.2))
      else if c = '[' then
        match skipWs rest with
        | [] => none
        | c2 :: r =>
          if c2 = ']' then some (Json.arr [], r)
          else (parseElems fuel rest).map (fun p => (Json.arr p.1, p.2))
      else if c = '\x7b' then
        match skipWs rest with
        | [] => none
        | c2 :: r =>
          if c2 = '\x7d' then some (Json.obj [], r)
          else (parseMembers fuel rest).map (fun p => (Json.obj (fromPairs p.1), p.2))
      else if c = '-' ∨ isDigitB c then
        (parseNumber (c :: rest)).map (fun p => (Json.num p.1, p.2))
      else none

/-- Elements of a non-empty array after the opening `[`, up to and
including the closing `]`. -/
def parseElems : Nat → List Char → Option (List Json × List Char)
  | 0, _ => none
  | fuel + 1, l =>
    match parseVal fuel l with
    | none => none
    | some (v, r) =>
      match skipWs r with
      | [] => none
      | c :: r2 =>
        if c = ',' then (parseElems fuel r2).map (fun p => (v :: p.1, p.2))
        else if c = ']' then some ([v], r2)
        else none

/-- Members of a non-empty object after the opening brace, up to and
including the closing brace. -/
def parseMembers : Nat → List Char → Option (List (String × Json) × List Char)
  | 0, _ => none
  | fuel + 1, l =>
    match skipWs l with
    | [] => none
    | c :: r =>
      if c = '\"' then
        match parseStringBody r with
        | none => none
        | some (kcs, r2) =>
          match skipWs r2 with
          | [] => none
          | c2 :: r3 =>
            if c2 = ':' then
              match parseVal fuel r3 with
              | none => none
              | some (v, r4) =>
                match skipWs r4 with
                | [] => none
                | c3 :: r5 =>
                  if c3 = ',' then
                    (parseMembers fuel r5).map (fun p => ((String.mk kcs, v) :: p.1, p.2))
                  else if c3 = '\x7d' then some ([(String.mk kcs, v)], r5)
                  else none
            else none
      else none

end

/-- Model of `json.loads`: parse a complete JSON document, requiring only
whitespace after the value. -/
def parse (s : String) : Option Json :=
  match parseVal (s.length + 1) s.data with
  | some (v, rest) => if (skipWs rest).isEmpty then some v else none
  | none => none

/-- Indentation prefix used by `json.dumps(..., indent=n)`. -/
def indentChars (n : Nat) : List Char := List.replicate n ' '

mutual

/-- Model of `json.dumps(x, indent=...)` rendering at indentation level `lv`:
brackets put items on their own lines, items are indented two further
spaces, the key separator stays `": "` and the item separator becomes
`",\n" + indent`. -/
def serializeIndentChars (lv : Nat) : Json → List Char
  | .arr [] => ['[', ']']
  | .arr (x :: xs) =>
      '[' :: '\n' :: indentChars (lv + 2) ++ serializeIndentChars (lv + 2) x ++
      serializeIndentList (lv + 2) xs ++ '\n' :: indentChars lv ++ [']']
  | .obj [] => ['\x7b', '\x7d']
  | .obj (m :: ms) =>
      '\x7b' :: '\n' :: indentChars (lv + 2) ++ serializeStringChars m.1 ++
      ':' :: ' ' :: serializeIndentChars (lv + 2) m.2 ++
      serializeIndentMembers (lv + 2) ms ++ '\n' :: indentChars lv ++ ['\x7d']
  | x => serializeChars x

/-- Remaining array items in indented rendering. -/
def serializeIndentList (lv : Nat) : List Json → List Char
  | [] => []
  | x :: xs =>
      ',' :: '\n' :: indentChars lv ++ serializeIndentChars lv x ++
      serializeIndentList lv xs

/-- Remaining object members in indented rendering. -/
def serializeIndentMembers (lv : Nat) : List (String × Json) → List Char
  | [] => []
  | m :: ms =>
      ',' :: '\n' :: indentChars lv ++ serializeStringChars m.1 ++
      ':' :: ' ' :: serializeIndentChars lv m.2 ++
      serializeIndentMembers lv ms

end

/-- Model of `json.dumps(x, indent=2)` (used on line 53 of `agent.py` for the
prompt body; `default=str` never fires because every context object is
already a `Json` value). -/
def serializeIndent (x : Json) : String := String.mk (serializeIndentChars 0 x)

/-- The structured output schema of the analysis agent
(`LogAnalysisResponse` in `agent.py`, a pydantic `BaseModel`). -/
structure LogAnalysisResponse where
  answer : String
  relevant_logs : List Json
  total_logs_analyzed : Int
deriving Repr

/-- Process-wide environment variables (`os.environ`), modelled as a map
from variable name to optional value. -/
abbrev Env := String → Option String

/-- Assignment `os.environ[key] = val`. -/
def setEnv (env : Env) (key val : String) : Env :=
  fun k => if k = key then some val else env k

/-- Lines 39-46 of `agent.py`: for each retrieved `Document`, try
`json.loads(doc.page_content)`; on `JSONDecodeError` wrap the raw text as
an object with a single `raw_content` field. -/
def contextLogs (relevant_chunks : List Document) : List Json :=
  relevant_chunks.map (fun doc =>
    match parse doc.page_content with
    | some log_data => log_data
    | none => Json.obj [("raw_content", Json.str doc.page_content)])

/-- Lines 49-56 of `agent.py`: the f-string prompt containing the question
verbatim and `json.dumps(context_logs, indent=2)`. -/
def contextText (question : String) (context_logs : List Json) : String :=
  "\n        Question: " ++ question ++
  "\n        \n        Log Entries to Analyze:\n        " ++
  serializeIndent (Json.arr context_logs) ++
  "\n        \n        Please analyze these logs to answer the question. Provide insights, patterns, and specific findings.\n        "

/-- Model of `analyze_logs_with_agent` (lines 36-69 of `agent.py`).  The external
LLM call `log_analysis_agent.run_sync(...).output` is the parameter
`run_sync`; a Python exception anywhere in the `try` block is modelled by
`Except.error` carrying `str(e)`.  The function builds the context list,
the prompt, assigns `os.environ["OPENAI_API_KEY"] = api_key`, calls the
provider, and converts any failure to the default error response. -/
def analyze_logs_with_agent (run_sync : String → Except String LogAnalysisResponse)
    (question : String) (relevant_chunks : List Document) (api_key : String)
    (env : Env) : LogAnalysisResponse × Env :=
  let context_logs := contextLogs relevant_chunks
  let context_text := contextText question context_logs
  let env2 := setEnv env "OPENAI_API_KEY" api_key
  match run_sync context_text with
  | Except.ok result => (result, env2)
  | Except.error e =>
      ({ answer := "Error analyzing logs: " ++ e, relevant_logs := [], total_logs_analyzed := 0 }, env2)

/-- Model of `get_relevant_chunks` (lines 78-107 of `app.py`).  The embeddings
initialisation, `Chroma` store load and `similarity_search` call made
inside the `try` block are the parameter `search_impl` (api_key, question,
k); any exception is caught and turned into the empty list. -/
def get_relevant_chunks (search_impl : String → String → Nat → Except String (List Document))
    (question api_key : String) (k : Nat) : List Document :=
  match search_impl api_key question k with
  | Except.ok relevant_docs => relevant_docs
  | Except.error _ => []

/-- Outcome of one run of the tab-2 "Analyze Logs" handler. -/
inductive AnalysisOutcome where
  | analyzed (resp : LogAnalysisResponse)
  | noRelevantLogs
deriving Repr

/-- The tab-2 "Analyze Logs" button handler (lines 128-155 of `app.py`):
retrieve chunks, and only if the list is truthy (non-empty) invoke
`analyze_logs_with_agent`; otherwise show "No relevant logs found". -/
def analyzeLogsTab (search_impl : String → String → Nat → Except String (List Document))
    (run_sync : String → Except String LogAnalysisResponse)
    (question api_key : String) (k : Nat) (env : Env) : AnalysisOutcome × Env :=
  let relevant_docs := get_relevant_chunks search_impl question api_key k
  if relevant_docs.isEmpty then (AnalysisOutcome.noRelevantLogs, env)
  else
    let p := analyze_logs_with_agent run_sync question relevant_docs api_key env
    (AnalysisOutcome.analyzed p.1, p.2)

/-- The persistent vector-store collection, as the list of stored
documents in insertion order. -/
abbrev Store := List Document

/-- Outcome of one run of the tab-1 "Process JSON Logs" handler. -/
inductive IngestOutcome where
  | success (n : Nat)
  | invalidJson
  | shapeError
  | storeFailure (msg : String)
deriving Repr

/-- Lines 50-60 of `app.py`: `for i, log_entry in enumerate(json_data)`,
each element serialized with `json.dumps` and paired with metadata
`{"index": i}`. -/
def processFrom (i : Nat) : List Json → List Document
  | [] => []
  | x :: xs =>
      { page_content := serialize x, metadata := [("index", Json.num (Int.ofNat i))] } ::
      processFrom (i + 1) xs

/-- The tab-1 "Process JSON Logs" handler body (lines 32-75 of `app.py`,
after the upload/API-key UI guards): `json.load`, the `isinstance(...,
list)` shape check, the document-building loop, and the external
embed-and-store call `Chroma.from_documents` (parameter `embedStore`).
`json.JSONDecodeError` and store exceptions are caught by the handler's
`except` clauses; in every error case the persistent store is untouched. -/
def processJsonLogs (embedStore : List Document → Store → Except String Store)
    (fileContent : String) (store : Store) : IngestOutcome × Store :=
  match parse fileContent with
  | none => (IngestOutcome.invalidJson, store)
  | some json_data =>
    match json_data with
    | Json.arr xs =>
        let documents := processFrom 0 xs
        match embedStore documents store with
        | Except.ok store2 => (IngestOutcome.success documents.length, store2)
        | Except.error msg => (IngestOutcome.storeFailure msg, store)
    | _ => (IngestOutcome.shapeError, store)

/-- Whether a JSON value is an array (`isinstance(json_data, list)`). -/
def isArrB : Json → Bool
  | .arr _ => true
  | _ => false

/-- Modelled from the spec: `Chroma.from_documents` on a persistent
directory, the external vector store's ingest operation, which is additive
("appending to any existing collection") per section 4.2 of the spec. -/
def appendStore (docs : List Document) (store : Store) : Except String Store :=
  Except.ok (store ++ docs)

/-- Modelled from the spec: the external vector store's
`similarity_search(question, k)` (ChromaDB), per sections 4.2 and 6 of the
spec: rank the stored chunks by similarity of the query to their text,
most similar first, and return the first `k`.  `sim q t` is the opaque
similarity score (embedding plus distance) of query `q` and stored text
`t`. -/
def similaritySearch (sim : String → String → Int) (store : Store)
    (q : String) (k : Nat) : List Document :=
  (List.insertionSort (fun a b => sim q b.page_content ≤ sim q a.page_content) store).take k

/-- Pairwise-distinct keys of an object member list. -/
def keysUnique : List (String × Json) → Bool
  | [] => true
  | m :: ms => !(ms.any (fun p => p.1 == m.1)) && keysUnique ms

mutual

/-- Well-formedness of a JSON value as a Python `json.load` result: every
object's keys are pairwise distinct (a Python `dict` cannot hold duplicate
keys). -/
def wfB : Json → Bool
  | .null => true
  | .bool _ => true
  | .num _ => true
  | .str _ => true
  | .arr xs => wfListB xs
  | .obj ms => keysUnique ms && wfMembersB ms

/-- Conjunction of `wfB` over every element. -/
def wfListB : List Json → Bool
  | [] => true
  | x :: xs => wfB x && wfListB xs

/-- Conjunction of `wfB` over every member value. -/
def wfMembersB : List (String × Json) → Bool
  | [] => true
  | m :: ms => wfB m.2 && wfMembersB ms

end

/-- A digit character differs from any non-digit character. -/
theorem digit_ne_of (c : Char) (h : isDigitB c = true) (d : Char)
    (hd : isDigitB d = false) : c ≠ d := by
  intro heq; subst heq; rw [h] at hd; cases hd

/-- A digit character is not JSON whitespace. -/
theorem ws_of_digit (c : Char) (h : isDigitB c = true) : isWsB c = false := by
  simp only [isWsB, Bool.or_eq_false_iff, beq_eq_false_iff_ne]
  refine ⟨⟨⟨?_, ?_⟩, ?_⟩, ?_⟩ <;> intro heq <;> subst heq <;> exact absurd h (by decide)

theorem digitCh_isDigit (d : Nat) (h : d < 10) : isDigitB (digitCh d) = true := by
  interval_cases d <;> decide

theorem digitCh_toNat (d : Nat) (h : d < 10) : (digitCh d).toNat = 48 + d := by
  interval_cases d <;> decide

theorem digitCh_ne_zero (d : Nat) (h1 : d < 10) (h2 : d ≠ 0) : digitCh d ≠ '0' := by
  interval_cases d <;> simp_all <;> decide

/-- The value `digitsVal` computes absorbs a trailing digit. -/
theorem digitsVal_append_digit (l : List Char) (c : Char) :
    digitsVal (l ++ [c]) = digitsVal l * 10 + (c.toNat - 48) := by
  simp [digitsVal, List.foldl_append]

/-- Everything `natCharsAux` produces (with sufficient fuel): digits only,
a non-empty result with a digit head, no leading `'0'` unless the number
is zero, and the decimal value round-trips. -/
theorem natCharsAux_spec (n : Nat) : ∀ fuel, n < fuel →
    (∀ c ∈ natCharsAux fuel n, isDigitB c = true) ∧
    (∃ c l, natCharsAux fuel n = c :: l ∧ isDigitB c = true ∧ (n ≠ 0 → c ≠ '0')) ∧
    digitsVal (natCharsAux fuel n) = n := by
  induction n using Nat.strong_induction_on with
  | _ n ih =>
    intro fuel hf
    obtain ⟨f, rfl⟩ : ∃ f, fuel = f + 1 := ⟨fuel - 1, by omega⟩
    by_cases h10 : n < 10
    · refine ⟨?_, ⟨digitCh n, [], ?_, digitCh_isDigit n h10, ?_⟩, ?_⟩
      · intro c hc
        simp [natCharsAux, h10] at hc
        subst hc; exact digitCh_isDigit n h10
      · simp [natCharsAux, h10]
      · exact fun hn => digitCh_ne_zero n h10 hn
      · simp [natCharsAux, h10, digitsVal, digitCh_toNat n h10]
    · have hdiv : n / 10 < n := Nat.div_lt_self (by omega) (by omega)
      have hfuel : n / 10 < f := by omega
      obtain ⟨hdigits, ⟨c, l, hcons, hcd, hcz⟩, hval⟩ := ih (n / 10) hdiv f hfuel
      have hne : natCharsAux (f + 1) n = natCharsAux f (n / 10) ++ [digitCh (n % 10)] := by
        simp [natCharsAux, h10]
      refine ⟨?_, ⟨c, l ++ [digitCh (n % 10)], ?_, hcd, ?_⟩, ?_⟩
      · intro ch hch
        rw [hne] at hch
        rcases List.mem_append.mp hch with h | h
        · exact hdigits ch h
        · simp at h; subst h; exact digitCh_isDigit _ (Nat.mod_lt _ (by omega))
      · rw [hne, hcons]; simp
      · exact fun _ => hcz (by omega)
      · rw [hne, digitsVal_append_digit, hval, digitCh_toNat _ (Nat.mod_lt _ (by omega))]
        omega

/-- Structure of `natChars`: non-empty, all digits, digit head that is `'0'`
only for zero itself, and value `n`. -/
theorem natChars_spec (n : Nat) :
    (∀ c ∈ natChars n, isDigitB c = true) ∧
    (∃ c l, natChars n = c :: l ∧ isDigitB c = true ∧ (n ≠ 0 → c ≠ '0')) ∧
    digitsVal (natChars n) = n :=
  natCharsAux_spec n (n + 1) (by omega)

/-- Splitting: `takeWhile`/`dropWhile` split an all-satisfying prefix off exactly. -/
theorem takeWhile_dropWhile_append (p : Char → Bool) :
    ∀ (l1 l2 : List Char), (∀ c ∈ l1, p c = true) →
    (∀ c l', l2 = c :: l' → p c = false) →
    (l1 ++ l2).takeWhile p = l1 ∧ (l1 ++ l2).dropWhile p = l2 := by
  intro l1
  induction l1 with
  | nil =>
    intro l2 _ h2
    cases l2 with
    | nil => simp
    | cons c l' => simp [List.takeWhile, List.dropWhile, h2 c l' rfl]
  | cons a l1 ih =>
    intro l2 h1 h2
    have ha : p a = true := h1 a (by simp)
    have := ih l2 (fun c hc => h1 c (by simp [hc])) h2
    simp [List.takeWhile, List.dropWhile, ha, this.1, this.2]

/-- Inversion: `parseNatNum` inverts `natChars` when the continuation does not start
with a digit. -/
theorem parseNatNum_natChars (n : Nat) (rest : List Char)
    (h : ∀ c l', rest = c :: l' → isDigitB c = false) :
    parseNatNum (natChars n ++ rest) = some (n, rest) := by
  obtain ⟨hdigits, ⟨c, l, hcons, hcd, hcz⟩, hval⟩ := natChars_spec n
  obtain ⟨htake, hdrop⟩ := takeWhile_dropWhile_append isDigitB (natChars n) rest hdigits h
  unfold parseNatNum
  rw [htake, hdrop]
  have hnonempty : (natChars n).isEmpty = false := by rw [hcons]; rfl
  rw [hnonempty]
  simp only [Bool.false_eq_true, if_false]
  rw [hval]
  have hnolead : ¬(1 < (natChars n).length ∧ (natChars n).head? = some '0') := by
    rintro ⟨hlen, hhead⟩
    rw [hcons] at hhead hlen
    simp at hhead
    by_cases hn : n = 0
    · subst hn
      have : natChars 0 = ['0'] := by decide
      rw [this] at hcons
      cases hcons; simp at hlen
    · exact hcz hn hhead
  rw [if_neg hnolead]

/-- Inversion: `parseNumber` inverts `intChars` when the continuation does not start
with a digit. -/
theorem parseNumber_intChars (i : Int) (rest : List Char)
    (h : ∀ c l', rest = c :: l' → isDigitB c = false) :
    parseNumber (intChars i ++ rest) = some (i, rest) := by
  by_cases hneg : i < 0
  · have hi : intChars i = '-' :: natChars i.natAbs := by simp [intChars, hneg]
    rw [hi]
    simp only [List.cons_append, parseNumber, if_pos rfl]
    rw [parseNatNum_natChars _ _ h]
    have hv : -((i.natAbs : Nat) : Int) = i := by omega
    simp only [Option.map_some']
    rw [hv]
    simp
  · have hi : intChars i = natChars i.toNat := by simp [intChars, hneg]
    rw [hi]
    obtain ⟨_, ⟨c, l, hcons, hcd, _⟩, _⟩ := natChars_spec i.toNat
    rw [hcons]
    simp only [List.cons_append, parseNumber]
    rw [if_neg (digit_ne_of c hcd '-' (by decide))]
    rw [← List.cons_append, ← hcons, parseNatNum_natChars _ _ h]
    have hv : ((i.toNat : Nat) : Int) = i := by omega
    simp only [Option.map_some']
    rw [hv]

theorem hexVal_hexDigitChar (n : Nat) (h : n < 16) : hexVal (hexDigitChar n) = some n := by
  interval_cases n <;> decide

/-- The four hex digits emitted by `uEscape` decode back to the code point. -/
theorem hex4_uEscape_val (n : Nat) (h : n < 65536) :
    hex4 (hexDigitChar (n / 4096)) (hexDigitChar (n / 256 % 16))
      (hexDigitChar (n / 16 % 16)) (hexDigitChar (n % 16)) = some n := by
  have h1 := hexVal_hexDigitChar (n / 4096) (by omega)
  have h2 := hexVal_hexDigitChar (n / 256 % 16) (Nat.mod_lt _ (by omega))
  have h3 := hexVal_hexDigitChar (n / 16 % 16) (Nat.mod_lt _ (by omega))
  have h4 := hexVal_hexDigitChar (n % 16) (Nat.mod_lt _ (by omega))
  simp [hex4, h1, h2, h3, h4]
  omega

/-- Decoding `\u` followed by four hex digits of value `n` hands off to
`decodeU n`. -/
theorem decodeEscape_u_hex (a b c d : Char) (n : Nat) (rest3 : List Char)
    (hx : hex4 a b c d = some n) :
    decodeEscape ('u' :: a :: b :: c :: d :: rest3) = decodeU n rest3 := by
  unfold decodeEscape
  simp only [Char.reduceEq, reduceIte]
  rw [hx]

/-- Decoding a non-surrogate `\uXXXX` escape yields the encoded character. -/
theorem decodeEscape_u (t : Nat) (l : List Char) (hlt : t < 65536)
    (hval : t < 55296 ∨ 57343 < t) :
    decodeEscape ('u' :: hexDigitChar (t / 4096) :: hexDigitChar (t / 256 % 16) ::
      hexDigitChar (t / 16 % 16) :: hexDigitChar (t % 16) :: l) = some (Char.ofNat t, l) := by
  rw [decodeEscape_u_hex _ _ _ _ t l (hex4_uEscape_val t hlt)]
  unfold decodeU
  rw [if_neg (by omega), if_neg (by omega)]

/-- Decoding the surrogate-pair escape of an astral code point yields the
encoded character. -/
theorem decodeEscape_surrogates (t : Nat) (l : List Char)
    (h1 : 65536 ≤ t) (h2 : t < 1114112) :
    decodeEscape ('u' ::
      hexDigitChar ((55296 + (t - 65536) / 1024) / 4096) ::
      hexDigitChar ((55296 + (t - 65536) / 1024) / 256 % 16) ::
      hexDigitChar ((55296 + (t - 65536) / 1024) / 16 % 16) ::
      hexDigitChar ((55296 + (t - 65536) / 1024) % 16) ::
      ('\\' :: 'u' ::
        hexDigitChar ((56320 + (t - 65536) % 1024) / 4096) ::
        hexDigitChar ((56320 + (t - 65536) % 1024) / 256 % 16) ::
        hexDigitChar ((56320 + (t - 65536) % 1024) / 16 % 16) ::
        hexDigitChar ((56320 + (t - 65536) % 1024) % 16) :: l)) = some (Char.ofNat t, l) := by
  have hhi : 55296 + (t - 65536) / 1024 < 65536 := by omega
  have hlo : 56320 + (t - 65536) % 1024 < 65536 := by
    have := Nat.mod_lt (t - 65536) (show 0 < 1024 by omega)
    omega
  have hm := Nat.mod_lt (t - 65536) (show 0 < 1024 by omega)
  rw [decodeEscape_u_hex _ _ _ _ _ _ (hex4_uEscape_val _ hhi)]
  unfold decodeU
  rw [if_pos (by constructor <;> omega)]
  simp only [Char.reduceEq, reduceIte]
  rw [hex4_uEscape_val _ hlo]
  simp only []
  rw [show 65536 + (55296 + (t - 65536) / 1024 - 55296) * 1024 +
    (56320 + (t - 65536) % 1024 - 56320) = t by omega]
  rw [if_pos (show 56320 ≤ 56320 + (t - 65536) % 1024 ∧
    56320 + (t - 65536) % 1024 < 57344 from ⟨by omega, by omega⟩)]
  simp

/-- Every character is rendered by `escapeChar` either literally (safe
printable ASCII) or as a backslash escape that `decodeEscape` inverts. -/
theorem escapeChar_decode (c : Char) (l : List Char) :
    (escapeChar c = [c] ∧ c ≠ '\"' ∧ c ≠ '\\' ∧ 32 ≤ c.toNat) ∨
    (∃ e, escapeChar c = '\\' :: e ∧ decodeEscape (e ++ l) = some (c, l)) := by
  have hvalid : c.toNat < 55296 ∨ (57343 < c.toNat ∧ c.toNat < 1114112) := c.valid
  by_cases h1 : c = '\"'
  · subst h1; exact Or.inr ⟨['\"'], rfl, rfl⟩
  by_cases h2 : c = '\\'
  · subst h2; exact Or.inr ⟨['\\'], rfl, rfl⟩
  by_cases h3 : c = '\n'
  · subst h3; exact Or.inr ⟨['n'], rfl, rfl⟩
  by_cases h4 : c = '\t'
  · subst h4; exact Or.inr ⟨['t'], rfl, rfl⟩
  by_cases h5 : c = '\r'
  · subst h5; exact Or.inr ⟨['r'], rfl, rfl⟩
  by_cases h6 : c.toNat = 8
  · have hc : c = Char.ofNat 8 := by rw [← Char.ofNat_toNat c, h6]
    subst hc; exact Or.inr ⟨['b'], rfl, rfl⟩
  by_cases h7 : c.toNat = 12
  · have hc : c = Char.ofNat 12 := by rw [← Char.ofNat_toNat c, h7]
    subst hc; exact Or.inr ⟨['f'], rfl, rfl⟩
  by_cases h8 : c.toNat < 32
  · have he : escapeChar c = uEscape c.toNat := by
      simp [escapeChar, h1, h2, h3, h4, h5, h6, h7, h8]
    refine Or.inr ⟨'u' :: hexDigitChar (c.toNat / 4096) :: hexDigitChar (c.toNat / 256 % 16) ::
      hexDigitChar (c.toNat / 16 % 16) :: [hexDigitChar (c.toNat % 16)], by rw [he]; rfl, ?_⟩
    have := decodeEscape_u c.toNat l (by omega) (by omega)
    rw [Char.ofNat_toNat] at this
    exact this
  by_cases h9 : c.toNat < 127
  · have he : escapeChar c = [c] := by
      simp [escapeChar, h1, h2, h3, h4, h5, h6, h7, h8, h9]
    exact Or.inl ⟨he, h1, h2, by omega⟩
  by_cases h10 : c.toNat < 65536
  · have he : escapeChar c = uEscape c.toNat := by
      simp [escapeChar, h1, h2, h3, h4, h5, h6, h7, h8, h9, h10]
    refine Or.inr ⟨'u' :: hexDigitChar (c.toNat / 4096) :: hexDigitChar (c.toNat / 256 % 16) ::
      hexDigitChar (c.toNat / 16 % 16) :: [hexDigitChar (c.toNat % 16)], by rw [he]; rfl, ?_⟩
    have := decodeEscape_u c.toNat l h10 (by omega)
    rw [Char.ofNat_toNat] at this
    exact this
  · have he : escapeChar c = uEscape (55296 + (c.toNat - 65536) / 1024) ++
        uEscape (56320 + (c.toNat - 65536) % 1024) := by
      simp [escapeChar, h1, h2, h3, h4, h5, h6, h7, h8, h9, h10]
    refine Or.inr ⟨'u' ::
      hexDigitChar ((55296 + (c.toNat - 65536) / 1024) / 4096) ::
      hexDigitChar ((55296 + (c.toNat - 65536) / 1024) / 256 % 16) ::
      hexDigitChar ((55296 + (c.toNat - 65536) / 1024) / 16 % 16) ::
      hexDigitChar ((55296 + (c.toNat - 65536) / 1024) % 16) ::
      '\\' :: 'u' ::
      hexDigitChar ((56320 + (c.toNat - 65536) % 1024) / 4096) ::
      hexDigitChar ((56320 + (c.toNat - 65536) % 1024) / 256 % 16) ::
      hexDigitChar ((56320 + (c.toNat - 65536) % 1024) / 16 % 16) ::
      [hexDigitChar ((56320 + (c.toNat - 65536) % 1024) % 16)], by rw [he]; rfl, ?_⟩
    have := decodeEscape_surrogates c.toNat l (by omega) (by omega)
    rw [Char.ofNat_toNat] at this
    exact this

/-- Fuel-indexed string-body round trip: parsing the escaped rendering of
`cs` followed by a closing quote recovers `cs`, for any fuel above the
number of source characters. -/
theorem parseStringBodyAux_flatMap :
    ∀ (cs : List Char) (fuel : Nat) (rest : List Char), cs.length < fuel →
    parseStringBodyAux fuel (cs.flatMap escapeChar ++ ('\"' :: rest)) = some (cs, rest) := by
  intro cs
  induction cs with
  | nil =>
    intro fuel rest hf
    obtain ⟨f, rfl⟩ : ∃ f, fuel = f + 1 := ⟨fuel - 1, by omega⟩
    simp [parseStringBodyAux]
  | cons c cs ih =>
    intro fuel rest hf
    obtain ⟨f, rfl⟩ : ∃ f, fuel = f + 1 := ⟨fuel - 1, by omega⟩
    rw [List.flatMap_cons, List.append_assoc]
    rcases escapeChar_decode c (cs.flatMap escapeChar ++ ('\"' :: rest)) with
      ⟨hlit, hq, hb, h32⟩ | ⟨e, hesc, hdec⟩
    · rw [hlit]
      simp only [List.cons_append, List.nil_append, parseStringBodyAux]
      rw [if_neg hq, if_neg hb, if_neg (by omega)]
      rw [ih f rest (by simp at hf; omega)]
      rfl
    · rw [hesc]
      simp only [List.cons_append, parseStringBodyAux]
      rw [if_pos trivial, hdec]
      simp only []
      rw [ih f rest (by simp at hf; omega)]
      rfl

/-- Positivity: `escapeChar` always produces at least one character. -/
theorem escapeChar_length_pos (c : Char) : 1 ≤ (escapeChar c).length := by
  rcases escapeChar_decode c [] with ⟨hlit, _, _, _⟩ | ⟨e, hesc, _⟩
  · rw [hlit]; simp
  · rw [hesc]; simp

/-- The escaped rendering is at least as long as the source string. -/
theorem length_le_flatMap_escape (cs : List Char) :
    cs.length ≤ (cs.flatMap escapeChar).length := by
  induction cs with
  | nil => simp
  | cons c cs ih =>
    rw [List.flatMap_cons]
    have := escapeChar_length_pos c
    simp only [List.length_append, List.length_cons]
    omega

/-- String-body round trip for the self-fuelled parser. -/
theorem parseStringBody_flatMap (cs rest : List Char) :
    parseStringBody (cs.flatMap escapeChar ++ ('\"' :: rest)) = some (cs, rest) := by
  unfold parseStringBody
  apply parseStringBodyAux_flatMap
  have := length_le_flatMap_escape cs
  simp only [List.length_append, List.length_cons]
  omega

/-- Whether the input does not start with a digit (so a preceding number
literal cannot be extended by the continuation). -/
def noLeadingDigit : List Char → Bool
  | [] => true
  | c :: _ => !(isDigitB c)

theorem skipWs_cons_of_not (c : Char) (l : List Char) (h : isWsB c = false) :
    skipWs (c :: l) = c :: l := by
  simp [skipWs, h]

theorem parseVal_cons_space (fuel : Nat) (l : List Char) :
    parseVal fuel (' ' :: l) = parseVal fuel l := by
  cases fuel with
  | zero => rfl
  | succ f =>
    have h : skipWs (' ' :: l) = skipWs l := by simp [skipWs, isWsB]
    rw [parseVal, parseVal, h]

theorem parseElems_cons_space (fuel : Nat) (l : List Char) :
    parseElems fuel (' ' :: l) = parseElems fuel l := by
  cases fuel with
  | zero => rfl
  | succ f => rw [parseElems, parseElems, parseVal_cons_space]

theorem parseMembers_cons_space (fuel : Nat) (l : List Char) :
    parseMembers fuel (' ' :: l) = parseMembers fuel l := by
  cases fuel with
  | zero => rfl
  | succ f =>
    have h : skipWs (' ' :: l) = skipWs l := by simp [skipWs, isWsB]
    rw [parseMembers, parseMembers, h]

/-- Shape: `intChars` is non-empty and starts with a minus sign or a digit. -/
theorem intChars_cons (i : Int) :
    ∃ c l', intChars i = c :: l' ∧ (c = '-' ∨ isDigitB c = true) := by
  by_cases hneg : i < 0
  · exact ⟨'-', natChars i.natAbs, by simp [intChars, hneg], Or.inl rfl⟩
  · obtain ⟨_, ⟨c, l, hcons, hcd, _⟩, _⟩ := natChars_spec i.toNat
    exact ⟨c, l, by simp [intChars, hneg, hcons], Or.inr hcd⟩

/-- The serialized form of any JSON value is non-empty, and its first
character is not whitespace, not a closing bracket or brace, and not a
comma. -/
theorem serializeChars_cons (x : Json) :
    ∃ c l, serializeChars x = c :: l ∧ isWsB c = false ∧ c ≠ ']' ∧ c ≠ '\x7d' ∧ c ≠ ',' ∧
      c ≠ ':' := by
  cases x with
  | null => exact ⟨'n', _, rfl, by decide, by decide, by decide, by decide, by decide⟩
  | bool b =>
    cases b with
    | true => exact ⟨'t', _, rfl, by decide, by decide, by decide, by decide, by decide⟩
    | false => exact ⟨'f', _, rfl, by decide, by decide, by decide, by decide, by decide⟩
  | num i =>
    obtain ⟨c, l', hc, hd⟩ := intChars_cons i
    refine ⟨c, l', by simp [serializeChars, hc], ?_, ?_, ?_, ?_, ?_⟩ <;>
      rcases hd with rfl | hd
    · decide
    · exact ws_of_digit c hd
    · decide
    · exact digit_ne_of c hd ']' (by decide)
    · decide
    · exact digit_ne_of c hd '\x7d' (by decide)
    · decide
    · exact digit_ne_of c hd ',' (by decide)
    · decide
    · exact digit_ne_of c hd ':' (by decide)
  | str s =>
    exact ⟨'\"', _, rfl, by decide, by decide, by decide, by decide, by decide⟩
  | arr xs => exact ⟨'[', _, rfl, by decide, by decide, by decide, by decide, by decide⟩
  | obj ms => exact ⟨'\x7b', _, rfl, by decide, by decide, by decide, by decide, by decide⟩

/-- Inserting pairs whose keys are disjoint from the accumulator's and
pairwise distinct just appends them in order. -/
theorem foldl_insertPair (ms : List (String × Json)) :
    ∀ acc, keysUnique ms = true →
    (∀ q ∈ ms, acc.any (fun p => p.1 == q.1) = false) →
    ms.foldl (fun acc m => insertPair acc m.1 m.2) acc = acc ++ ms := by
  induction ms with
  | nil => intro acc _ _; simp
  | cons m ms ih =>
    intro acc hu hdisj
    have hm : acc.any (fun p => p.1 == m.1) = false := hdisj m (by simp)
    have hu2 : keysUnique ms = true := by
      simp [keysUnique, Bool.and_eq_true] at hu
      exact hu.2
    have hnotin : ms.any (fun p => p.1 == m.1) = false := by
      simp [keysUnique, Bool.and_eq_true] at hu
      simpa using hu.1
    have step : insertPair acc m.1 m.2 = acc ++ [m] := by
      unfold insertPair
      rw [hm]
      simp
    rw [List.foldl_cons, step]
    rw [ih (acc ++ [m]) hu2 ?_]
    · simp
    · intro q hq
      have hq1 : (q.1 == m.1) = false := by
        have h := List.any_eq_false.mp hnotin q hq
        simpa using h
      have hq2 : (m.1 == q.1) = false := by
        simp only [beq_eq_false_iff_ne] at hq1 ⊢
        exact fun h => hq1 h.symm
      have hda := hdisj q (List.mem_cons_of_mem m hq)
      simp only [List.any_append, Bool.or_eq_false_iff]
      refine ⟨hda, ?_⟩
      simp [hq2]

/-- Python-`dict` construction collapses to the identity on member lists
with pairwise-distinct keys. -/
theorem fromPairs_eq_self (ms : List (String × Json)) (h : keysUnique ms = true) :
    fromPairs ms = ms := by
  unfold fromPairs
  rw [foldl_insertPair ms [] h (by intro q _; simp)]
  simp

theorem expectChars_self : ∀ (es l : List Char), expectChars es (es ++ l) = some l := by
  intro es
  induction es with
  | nil => intro l; rfl
  | cons e es ih => intro l; simp [expectChars, ih]

theorem noLeadingDigit_spec (rest : List Char) (h : noLeadingDigit rest = true) :
    ∀ c l', rest = c :: l' → isDigitB c = false := by
  intro c l' hrest
  subst hrest
  simpa [noLeadingDigit] using h

theorem serializeStringChars_length (k : String) :
    2 ≤ (serializeStringChars k).length := by
  simp [serializeStringChars]

theorem serializeChars_length_pos (x : Json) : 1 ≤ (serializeChars x).length := by
  obtain ⟨c, l, hc, -⟩ := serializeChars_cons x
  rw [hc]; simp

/-- Induction step for `parseVal` in the serializer round trip. -/
theorem roundtrip_stepP (f : Nat)
    (ihP : ∀ x rest, (serializeChars x).length ≤ f → wfB x = true →
      noLeadingDigit rest = true → parseVal f (serializeChars x ++ rest) = some (x, rest))
    (ihQ : ∀ xs rest, xs ≠ [] → (serializeList xs).length + 1 ≤ f → wfListB xs = true →
      parseElems f (serializeList xs ++ (']' :: rest)) = some (xs, rest))
    (ihR : ∀ ms rest, ms ≠ [] → (serializeMembers ms).length + 1 ≤ f → wfMembersB ms = true →
      parseMembers f (serializeMembers ms ++ ('\x7d' :: rest)) = some (ms, rest)) :
    ∀ x rest, (serializeChars x).length ≤ f + 1 → wfB x = true →
      noLeadingDigit rest = true → parseVal (f + 1) (serializeChars x ++ rest) = some (x, rest) := by
  intro x rest hlen hwf hnd
  cases x with
  | null =>
    simp only [serializeChars, List.cons_append, List.nil_append]
    rw [parseVal, skipWs_cons_of_not _ _ (by decide)]
    simp only [Char.reduceEq, reduceIte]
    rw [show ('u' :: 'l' :: 'l' :: rest) = ['u', 'l', 'l'] ++ rest from rfl, expectChars_self]
    rfl
  | bool b =>
    cases b with
    | true =>
      simp only [serializeChars, List.cons_append, List.nil_append]
      rw [parseVal, skipWs_cons_of_not _ _ (by decide)]
      simp only [Char.reduceEq, reduceIte]
      rw [show ('r' :: 'u' :: 'e' :: rest) = ['r', 'u', 'e'] ++ rest from rfl, expectChars_self]
      rfl
    | false =>
      simp only [serializeChars, List.cons_append, List.nil_append]
      rw [parseVal, skipWs_cons_of_not _ _ (by decide)]
      simp only [Char.reduceEq, reduceIte]
      rw [show ('a' :: 'l' :: 's' :: 'e' :: rest) = ['a', 'l', 's', 'e'] ++ rest from rfl,
        expectChars_self]
      rfl
  | num i =>
    obtain ⟨c, l', hc, hd⟩ := intChars_cons i
    have hws : isWsB c = false := by
      rcases hd with rfl | hd
      · decide
      · exact ws_of_digit c hd
    have hne : c ≠ 'n' ∧ c ≠ 't' ∧ c ≠ 'f' ∧ c ≠ '\"' ∧ c ≠ '[' ∧ c ≠ '\x7b' := by
      rcases hd with rfl | hd
      · exact ⟨by decide, by decide, by decide, by decide, by decide, by decide⟩
      · exact ⟨digit_ne_of c hd 'n' (by decide), digit_ne_of c hd 't' (by decide),
          digit_ne_of c hd 'f' (by decide), digit_ne_of c hd '\"' (by decide),
          digit_ne_of c hd '[' (by decide), digit_ne_of c hd '\x7b' (by decide)⟩
    simp only [serializeChars]
    rw [hc, List.cons_append, parseVal, skipWs_cons_of_not _ _ hws]
    simp only []
    rw [if_neg hne.1, if_neg hne.2.1, if_neg hne.2.2.1, if_neg hne.2.2.2.1,
      if_neg hne.2.2.2.2.1, if_neg hne.2.2.2.2.2, if_pos hd]
    rw [← List.cons_append, ← hc, parseNumber_intChars i rest (noLeadingDigit_spec rest hnd)]
    rfl
  | str s =>
    simp only [serializeChars, serializeStringChars, List.cons_append, List.append_assoc,
      List.singleton_append, List.nil_append]
    rw [parseVal, skipWs_cons_of_not _ _ (by decide)]
    simp only [Char.reduceEq, reduceIte]
    rw [parseStringBody_flatMap]
    simp only [Option.map_some']
  | arr xs =>
    cases xs with
    | nil =>
      simp only [serializeChars, serializeList, List.cons_append, List.nil_append]
      rw [parseVal, skipWs_cons_of_not _ _ (by decide)]
      simp only [Char.reduceEq, reduceIte]
      rw [skipWs_cons_of_not _ _ (by decide)]
      simp only [Char.reduceEq, reduceIte]
    | cons x xs' =>
      have hlist : ∃ t, serializeList (x :: xs') = serializeChars x ++ t := by
        cases xs' with
        | nil => exact ⟨[], by simp [serializeList]⟩
        | cons y t => exact ⟨',' :: ' ' :: serializeList (y :: t), by simp [serializeList]⟩
      obtain ⟨c, l', hc, hcws, hcrb, hccb, hcc, hcol⟩ := serializeChars_cons x
      obtain ⟨t, ht⟩ := hlist
      have hshape : serializeList (x :: xs') ++ (']' :: rest) =
          c :: (l' ++ t ++ (']' :: rest)) := by
        rw [ht, hc]; simp
      simp only [serializeChars, List.cons_append, List.append_assoc, List.singleton_append,
        List.nil_append]
      rw [parseVal, skipWs_cons_of_not _ _ (by decide)]
      simp only [Char.reduceEq, reduceIte]
      rw [hshape, skipWs_cons_of_not _ _ hcws]
      simp only []
      rw [if_neg hcrb, ← hshape]
      have hlen2 : (serializeList (x :: xs')).length + 1 ≤ f := by
        have : (serializeChars (Json.arr (x :: xs'))).length =
            (serializeList (x :: xs')).length + 2 := by
          simp [serializeChars]
        omega
      rw [ihQ (x :: xs') rest (by simp) hlen2 (by simpa [wfB] using hwf)]
      rfl
  | obj ms =>
    cases ms with
    | nil =>
      simp only [serializeChars, serializeMembers, List.cons_append, List.nil_append]
      rw [parseVal, skipWs_cons_of_not _ _ (by decide)]
      simp only [Char.reduceEq, reduceIte]
      rw [skipWs_cons_of_not _ _ (by decide)]
      simp only [Char.reduceEq, reduceIte]
    | cons m ms' =>
      have hmem : ∃ t, serializeMembers (m :: ms') =
          '\"' :: (m.1.data.flatMap escapeChar ++ ('\"' :: t)) := by
        cases ms' with
        | nil =>
          exact ⟨':' :: ' ' :: serializeChars m.2, by
            simp [serializeMembers, serializeStringChars]⟩
        | cons m2 t' =>
          exact ⟨':' :: ' ' :: (serializeChars m.2 ++ ',' :: ' ' :: serializeMembers (m2 :: t')),
            by simp [serializeMembers, serializeStringChars]⟩
      obtain ⟨t, ht⟩ := hmem
      simp only [serializeChars, List.cons_append, List.append_assoc, List.singleton_append,
        List.nil_append]
      rw [parseVal, skipWs_cons_of_not _ _ (by decide)]
      simp only [Char.reduceEq, reduceIte]
      have hshape : serializeMembers (m :: ms') ++ ('\x7d' :: rest) =
          '\"' :: (m.1.data.flatMap escapeChar ++ ('\"' :: t) ++ ('\x7d' :: rest)) := by
        rw [ht]; simp
      rw [hshape, skipWs_cons_of_not _ _ (by decide)]
      simp only []
      rw [if_neg (by decide), ← hshape]
      have hwf2 : keysUnique (m :: ms') = true ∧ wfMembersB (m :: ms') = true := by
        simpa [wfB, Bool.and_eq_true] using hwf
      have hlen2 : (serializeMembers (m :: ms')).length + 1 ≤ f := by
        have : (serializeChars (Json.obj (m :: ms'))).length =
            (serializeMembers (m :: ms')).length + 2 := by
          simp [serializeChars]
        omega
      rw [ihR (m :: ms') rest (by simp) hlen2 hwf2.2]
      simp only [Option.map_some']
      rw [fromPairs_eq_self _ hwf2.1]

/-- Induction step for `parseElems` in the serializer round trip. -/
theorem roundtrip_stepQ (f : Nat)
    (ihP : ∀ x rest, (serializeChars x).length ≤ f → wfB x = true →
      noLeadingDigit rest = true → parseVal f (serializeChars x ++ rest) = some (x, rest))
    (ihQ : ∀ xs rest, xs ≠ [] → (serializeList xs).length + 1 ≤ f → wfListB xs = true →
      parseElems f (serializeList xs ++ (']' :: rest)) = some (xs, rest)) :
    ∀ xs rest, xs ≠ [] → (serializeList xs).length + 1 ≤ f + 1 → wfListB xs = true →
      parseElems (f + 1) (serializeList xs ++ (']' :: rest)) = some (xs, rest) := by
  intro xs rest hne hlen hwf
  cases xs with
  | nil => exact absurd rfl hne
  | cons x xs' =>
    cases xs' with
    | nil =>
      have hwfx : wfB x = true := by simpa [wfListB] using hwf
      have hlenx : (serializeChars x).length ≤ f := by
        have : (serializeList [x]).length = (serializeChars x).length := by
          simp [serializeList]
        omega
      rw [parseElems]
      rw [show serializeList [x] = serializeChars x by simp [serializeList]]
      rw [ihP x (']' :: rest) hlenx hwfx rfl]
      simp only []
      rw [skipWs_cons_of_not _ _ (by decide)]
      simp only [Char.reduceEq, reduceIte]
    | cons y t =>
      have hwf2 : wfB x = true ∧ wfListB (y :: t) = true := by
        simpa [wfListB, Bool.and_eq_true] using hwf
      have hxpos := serializeChars_length_pos x
      have hlens : (serializeList (x :: y :: t)).length =
          (serializeChars x).length + 2 + (serializeList (y :: t)).length := by
        simp [serializeList]
        omega
      have hlenx : (serializeChars x).length ≤ f := by omega
      have hlenr : (serializeList (y :: t)).length + 1 ≤ f := by omega
      rw [parseElems]
      rw [show serializeList (x :: y :: t) =
        serializeChars x ++ ',' :: ' ' :: serializeList (y :: t) by simp [serializeList]]
      rw [List.append_assoc, List.cons_append, List.cons_append]
      rw [ihP x (',' :: ' ' :: (serializeList (y :: t) ++ (']' :: rest))) hlenx hwf2.1 rfl]
      simp only []
      rw [skipWs_cons_of_not _ _ (by decide)]
      simp only [Char.reduceEq, reduceIte]
      rw [parseElems_cons_space]
      rw [ihQ (y :: t) rest (by simp) hlenr hwf2.2]
      rfl

/-- Induction step for `parseMembers` in the serializer round trip. -/
theorem roundtrip_stepR (f : Nat)
    (ihP : ∀ x rest, (serializeChars x).length ≤ f → wfB x = true →
      noLeadingDigit rest = true → parseVal f (serializeChars x ++ rest) = some (x, rest))
    (ihR : ∀ ms rest, ms ≠ [] → (serializeMembers ms).length + 1 ≤ f → wfMembersB ms = true →
      parseMembers f (serializeMembers ms ++ ('\x7d' :: rest)) = some (ms, rest)) :
    ∀ ms rest, ms ≠ [] → (serializeMembers ms).length + 1 ≤ f + 1 → wfMembersB ms = true →
      parseMembers (f + 1) (serializeMembers ms ++ ('\x7d' :: rest)) = some (ms, rest) := by
  intro ms rest hne hlen hwf
  cases ms with
  | nil => exact absurd rfl hne
  | cons m ms' =>
    cases ms' with
    | nil =>
      have hwfv : wfB m.2 = true := by simpa [wfMembersB] using hwf
      have hlenv : (serializeChars m.2).length ≤ f := by
        have : (serializeMembers [m]).length =
            (serializeStringChars m.1).length + 2 + (serializeChars m.2).length := by
          simp [serializeMembers]
          omega
        omega
      rw [parseMembers]
      rw [show serializeMembers [m] =
        serializeStringChars m.1 ++ ':' :: ' ' :: serializeChars m.2 by simp [serializeMembers]]
      simp only [serializeStringChars, List.cons_append, List.append_assoc,
        List.singleton_append, List.nil_append]
      rw [skipWs_cons_of_not _ _ (by decide)]
      simp only [Char.reduceEq, reduceIte]
      rw [parseStringBody_flatMap]
      simp only []
      rw [skipWs_cons_of_not _ _ (by decide)]
      simp only [Char.reduceEq, reduceIte]
      rw [parseVal_cons_space]
      rw [ihP m.2 ('\x7d' :: rest) hlenv hwfv rfl]
      simp only []
      rw [skipWs_cons_of_not _ _ (by decide)]
      simp only [Char.reduceEq, reduceIte]
    | cons m2 t =>
      have hwf2 : wfB m.2 = true ∧ wfMembersB (m2 :: t) = true := by
        simpa [wfMembersB, Bool.and_eq_true] using hwf
      have hkpos := serializeStringChars_length m.1
      have hvpos := serializeChars_length_pos m.2
      have hlens : (serializeMembers (m :: m2 :: t)).length =
          (serializeStringChars m.1).length + 2 + (serializeChars m.2).length + 2 +
          (serializeMembers (m2 :: t)).length := by
        simp [serializeMembers]
        omega
      have hlenv : (serializeChars m.2).length ≤ f := by omega
      have hlenr : (serializeMembers (m2 :: t)).length + 1 ≤ f := by omega
      rw [parseMembers]
      rw [show serializeMembers (m :: m2 :: t) =
        serializeStringChars m.1 ++ ':' :: ' ' :: serializeChars m.2 ++
        ',' :: ' ' :: serializeMembers (m2 :: t) by simp [serializeMembers]]
      simp only [serializeStringChars, List.cons_append, List.append_assoc,
        List.singleton_append, List.nil_append]
      rw [skipWs_cons_of_not _ _ (by decide)]
      simp only [Char.reduceEq, reduceIte]
      rw [parseStringBody_flatMap]
      simp only []
      rw [skipWs_cons_of_not _ _ (by decide)]
      simp only [Char.reduceEq, reduceIte]
      rw [parseVal_cons_space]
      rw [ihP m.2 (',' :: ' ' :: (serializeMembers (m2 :: t) ++ ('\x7d' :: rest))) hlenv
        hwf2.1 rfl]
      simp only []
      rw [skipWs_cons_of_not _ _ (by decide)]
      simp only [Char.reduceEq, reduceIte]
      rw [parseMembers_cons_space]
      rw [ihR (m2 :: t) rest (by simp) hlenr hwf2.2]
      rfl

/-- The serializer round trip for all three parser functions, by
induction on fuel. -/
theorem parse_roundtrip_all (fuel : Nat) :
    (∀ x rest, (serializeChars x).length ≤ fuel → wfB x = true →
      noLeadingDigit rest = true → parseVal fuel (serializeChars x ++ rest) = some (x, rest)) ∧
    (∀ xs rest, xs ≠ [] → (serializeList xs).length + 1 ≤ fuel → wfListB xs = true →
      parseElems fuel (serializeList xs ++ (']' :: rest)) = some (xs, rest)) ∧
    (∀ ms rest, ms ≠ [] → (serializeMembers ms).length + 1 ≤ fuel → wfMembersB ms = true →
      parseMembers fuel (serializeMembers ms ++ ('\x7d' :: rest)) = some (ms, rest)) := by
  induction fuel with
  | zero =>
    refine ⟨?_, ?_, ?_⟩
    · intro x rest hlen _ _
      have := serializeChars_length_pos x
      exact absurd hlen (by omega)
    · intro xs rest _ hlen _
      exact absurd hlen (by omega)
    · intro ms rest _ hlen _
      exact absurd hlen (by omega)
  | succ f ih =>
    exact ⟨roundtrip_stepP f ih.1 ih.2.1 ih.2.2, roundtrip_stepQ f ih.1 ih.2.1,
      roundtrip_stepR f ih.1 ih.2.2⟩

/-- Serializer/parser round trip on strings: `json.loads(json.dumps(x))`
recovers `x` for every well-formed JSON value. -/
theorem parse_serialize (x : Json) (h : wfB x = true) : parse (serialize x) = some x := by
  have hP := (parse_roundtrip_all ((serializeChars x).length + 1)).1 x [] (by omega) h rfl
  rw [List.append_nil] at hP
  unfold parse serialize
  rw [show (String.mk (serializeChars x)).length = (serializeChars x).length from rfl]
  rw [show (String.mk (serializeChars x)).data = serializeChars x from rfl]
  rw [hP]
  rfl

theorem processFrom_length : ∀ (xs : List Json) (i : Nat),
    (processFrom i xs).length = xs.length := by
  intro xs
  induction xs with
  | nil => intro i; rfl
  | cons x xs ih => intro i; simp [processFrom, ih]

theorem processFrom_get : ∀ (xs : List Json) (start i : Nat) (h1 : i < xs.length)
    (h2 : i < (processFrom start xs).length),
    (processFrom start xs).get ⟨i, h2⟩ =
      { page_content := serialize (xs.get ⟨i, h1⟩),
        metadata := [("index", Json.num (Int.ofNat (start + i)))] } := by
  intro xs
  induction xs with
  | nil => intro start i h1 _; exact absurd h1 (by simp)
  | cons x xs ih =>
    intro start i h1 h2
    cases i with
    | zero => simp [processFrom]
    | succ j =>
      have hj1 : j < xs.length := by simpa using Nat.lt_of_succ_lt_succ h1
      have hj2 : j < (processFrom (start + 1) xs).length := by
        rw [processFrom_length]; exact hj1
      have := ih (start + 1) j hj1 hj2
      simp only [processFrom, List.get_cons_succ]
      rw [this]
      have harith : start + 1 + j = start + (j + 1) := by omega
      rw [harith]

theorem contextLogs_get : ∀ (docs : List Document) (i : Nat) (h1 : i < docs.length)
    (h2 : i < (contextLogs docs).length),
    (contextLogs docs).get ⟨i, h2⟩ =
      (match parse ((docs.get ⟨i, h1⟩).page_content) with
       | some log_data => log_data
       | none => Json.obj [("raw_content", Json.str ((docs.get ⟨i, h1⟩).page_content))]) := by
  intro docs
  induction docs with
  | nil => intro i h1 _; exact absurd h1 (by simp)
  | cons d docs ih =>
    intro i h1 h2
    cases i with
    | zero => simp [contextLogs]
    | succ j =>
      have hj1 : j < docs.length := by simpa using Nat.lt_of_succ_lt_succ h1
      have hj2 : j < (contextLogs docs).length := by
        simpa [contextLogs] using Nat.lt_of_succ_lt_succ h2
      have := ih j hj1 hj2
      simpa [contextLogs] using this

/-- C1: the Analysis Agent is total — `analyze_logs_with_agent` returns a
`LogAnalysisResponse` for every input (it is a total Lean function), and
whenever the provider call fails, the returned response has `answer`
prefixed with "Error analyzing logs: " (followed by the failure detail),
`relevant_logs` equal to the empty list, and `total_logs_analyzed` equal
to 0. -/
theorem analysis_agent_total_and_error_default
    (run_sync : String → Except String LogAnalysisResponse) (question : String)
    (relevant_chunks : List Document) (api_key : String) (env : Env) (e : String)
    (h : run_sync (contextText question (contextLogs relevant_chunks)) = Except.error e) :
    (analyze_logs_with_agent run_sync question relevant_chunks api_key env).1 =
      { answer := "Error analyzing logs: " ++ e, relevant_logs := [],
        total_logs_analyzed := 0 } := by
  simp only [analyze_logs_with_agent]
  rw [h]

/-- Witness for C1 at a concrete failing provider. -/
theorem analysis_agent_total_and_error_default_witness :
    (analyze_logs_with_agent (fun _ => Except.error "provider down") "q" [] "sk"
      (fun _ => none)).1 =
      { answer := "Error analyzing logs: " ++ "provider down", relevant_logs := [],
        total_logs_analyzed := 0 } :=
  analysis_agent_total_and_error_default (fun _ => Except.error "provider down") "q" [] "sk"
    (fun _ => none) "provider down" rfl

/-- C2 counterexample: when the underlying store access fails (e.g. no
store exists yet), `get_relevant_chunks` returns `[]` — the very same
value a successful search over an empty store returns, so the caller
cannot distinguish the two, contradicting the claimed
`StoreNotFoundError`. -/
theorem search_error_indistinguishable_counterexample :
    ¬ (∀ (question api_key : String) (k : Nat),
        get_relevant_chunks (fun _ _ _ => Except.error "StoreNotFoundError")
          question api_key k ≠
        get_relevant_chunks (fun _ _ _ => Except.ok ([] : List Document))
          question api_key k) := by
  intro hclaim
  exact hclaim "q" "sk" 5 rfl

/-- C2 amended: whenever the underlying store access raises (including
search before any ingest), `get_relevant_chunks` catches the error and
returns the empty list, identical to the result of a successful search
with zero matches; no `StoreNotFoundError` reaches the caller. -/
theorem search_error_returns_empty
    (search_impl : String → String → Nat → Except String (List Document))
    (question api_key : String) (k : Nat) (e : String)
    (h : search_impl api_key question k = Except.error e) :
    get_relevant_chunks search_impl question api_key k = [] ∧
    get_relevant_chunks search_impl question api_key k =
      get_relevant_chunks (fun _ _ _ => Except.ok ([] : List Document)) question api_key k := by
  unfold get_relevant_chunks
  rw [h]
  exact ⟨rfl, rfl⟩

/-- Witness for the amended C2 at a concrete failing store. -/
theorem search_error_returns_empty_witness :
    ((fun (_ _ : String) (_ : Nat) => (Except.error "no store" : Except String (List Document)))
        "sk" "q" 5 = Except.error "no store") ∧
    (get_relevant_chunks (fun _ _ _ => Except.error "no store") "q" "sk" 5 = [] ∧
      get_relevant_chunks (fun _ _ _ => Except.error "no store") "q" "sk" 5 =
        get_relevant_chunks (fun _ _ _ => Except.ok ([] : List Document)) "q" "sk" 5) :=
  ⟨rfl, search_error_returns_empty _ "q" "sk" 5 "no store" rfl⟩

/-- C3 counterexample: the code returns the model's structured output
unmodified, so `total_logs_analyzed` is whatever the model filled in — it
need not equal the number of retrieved chunks passed in (here the model
says 42 while exactly one chunk was presented). -/
theorem total_logs_equals_chunk_count_counterexample :
    ¬ (∀ (run_sync : String → Except String LogAnalysisResponse) (question : String)
        (chunks : List Document) (api_key : String) (env : Env) (r : LogAnalysisResponse),
        run_sync (contextText question (contextLogs chunks)) = Except.ok r →
        (analyze_logs_with_agent run_sync question chunks api_key env).1.total_logs_analyzed =
          (chunks.length : Int)) := by
  intro hclaim
  have h := hclaim (fun _ => Except.ok ⟨"ans", [], 42⟩) "q"
    [{ page_content := "x", metadata := [] }] "sk" (fun _ => none) ⟨"ans", [], 42⟩ rfl
  have heval : (analyze_logs_with_agent (fun _ => Except.ok
      (⟨"ans", [], 42⟩ : LogAnalysisResponse)) "q"
      [{ page_content := "x", metadata := [] }] "sk" (fun _ => none)).1.total_logs_analyzed =
      (42 : Int) := rfl
  rw [heval] at h
  exact absurd h (by decide)

/-- C3 amended: on success the returned response is exactly the model's
structured output — in particular `total_logs_analyzed` is the value the
model produced, unconstrained by the number of chunks presented. -/
theorem analyze_success_returns_model_output
    (run_sync : String → Except String LogAnalysisResponse) (question : String)
    (chunks : List Document) (api_key : String) (env : Env) (r : LogAnalysisResponse)
    (h : run_sync (contextText question (contextLogs chunks)) = Except.ok r) :
    (analyze_logs_with_agent run_sync question chunks api_key env).1 = r := by
  simp only [analyze_logs_with_agent]
  rw [h]

/-- Witness for the amended C3 at a concrete successful provider. -/
theorem analyze_success_returns_model_output_witness :
    (analyze_logs_with_agent (fun _ => Except.ok (⟨"ans", [], 42⟩ : LogAnalysisResponse))
      "q" [{ page_content := "x", metadata := [] }] "sk" (fun _ => none)).1 =
      (⟨"ans", [], 42⟩ : LogAnalysisResponse) :=
  analyze_success_returns_model_output (fun _ => Except.ok ⟨"ans", [], 42⟩) "q"
    [{ page_content := "x", metadata := [] }] "sk" (fun _ => none) ⟨"ans", [], 42⟩ rfl

/-- C4: for every file whose content parses as a JSON array of length N,
the ingest handler produces exactly N stored chunks appended to the store
(one `Document` per element, elements of any JSON kind), where the chunk
at position i has text `json.dumps` of element i and metadata
`{"index": i}`, in the original array order. -/
theorem ingest_produces_indexed_chunks (fileContent : String) (store : Store) (xs : List Json)
    (h : parse fileContent = some (Json.arr xs)) :
    (processJsonLogs appendStore fileContent store).1 = IngestOutcome.success xs.length ∧
    (processJsonLogs appendStore fileContent store).2 = store ++ processFrom 0 xs ∧
    (processFrom 0 xs).length = xs.length ∧
    (∀ (i : Nat) (h1 : i < xs.length) (h2 : i < (processFrom 0 xs).length),
      (processFrom 0 xs).get ⟨i, h2⟩ =
        { page_content := serialize (xs.get ⟨i, h1⟩),
          metadata := [("index", Json.num (Int.ofNat i))] }) := by
  refine ⟨?_, ?_, processFrom_length xs 0, ?_⟩
  · simp [processJsonLogs, h, appendStore, processFrom_length]
  · simp [processJsonLogs, h, appendStore]
  · intro i h1 h2
    have := processFrom_get xs 0 i h1 h2
    simpa using this

/-- Witness for C4 on the concrete array `[1, 2]` and an empty store. -/
theorem ingest_produces_indexed_chunks_witness :
    parse "[1, 2]" = some (Json.arr [Json.num 1, Json.num 2]) ∧
    ((processJsonLogs appendStore "[1, 2]" []).1 = IngestOutcome.success
        ([Json.num 1, Json.num 2] : List Json).length ∧
      (processJsonLogs appendStore "[1, 2]" []).2 =
        [] ++ processFrom 0 [Json.num 1, Json.num 2] ∧
      (processFrom 0 [Json.num 1, Json.num 2]).length =
        ([Json.num 1, Json.num 2] : List Json).length ∧
      (∀ (i : Nat) (h1 : i < ([Json.num 1, Json.num 2] : List Json).length)
        (h2 : i < (processFrom 0 [Json.num 1, Json.num 2]).length),
        (processFrom 0 [Json.num 1, Json.num 2]).get ⟨i, h2⟩ =
          { page_content := serialize (([Json.num 1, Json.num 2] : List Json).get ⟨i, h1⟩),
            metadata := [("index", Json.num (Int.ofNat i))] })) :=
  ⟨rfl, ingest_produces_indexed_chunks "[1, 2]" [] [Json.num 1, Json.num 2] rfl⟩

/-- C5: if the parsed top-level JSON value of an ingest input is not an
array, the handler fails with the shape error ("JSON file should contain
an array of objects") and performs no ingestion: the store is unchanged
for every possible behaviour of the external embed-and-store call, which
is never invoked. -/
theorem ingest_nonarray_shape_error
    (embedStore : List Document → Store → Except String Store)
    (fileContent : String) (store : Store) (j : Json)
    (h1 : parse fileContent = some j) (h2 : isArrB j = false) :
    processJsonLogs embedStore fileContent store = (IngestOutcome.shapeError, store) := by
  cases j <;> simp_all [processJsonLogs, isArrB]

/-- Witness for C5 on the concrete non-array input `null`. -/
theorem ingest_nonarray_shape_error_witness :
    parse "null" = some Json.null ∧ isArrB Json.null = false ∧
    processJsonLogs appendStore "null" [] = (IngestOutcome.shapeError, []) :=
  ⟨rfl, rfl, ingest_nonarray_shape_error appendStore "null" [] Json.null rfl rfl⟩

/-- C6: the Context Assembler produces a list of exactly the same length
and order as the retrieval result: position i holds the parsed JSON of
chunk i's text when it parses, and the `{"raw_content": ...}` wrapper
otherwise; no retrieved record is dropped. -/
theorem context_assembler_preserves_records (docs : List Document) (i : Nat)
    (h1 : i < docs.length) (h2 : i < (contextLogs docs).length) :
    (contextLogs docs).length = docs.length ∧
    (contextLogs docs).get ⟨i, h2⟩ =
      (match parse ((docs.get ⟨i, h1⟩).page_content) with
       | some log_data => log_data
       | none => Json.obj [("raw_content", Json.str ((docs.get ⟨i, h1⟩).page_content))]) :=
  ⟨by simp [contextLogs], contextLogs_get docs i h1 h2⟩

/-- Witness for C6 on a concrete retrieval result with one JSON chunk and
one non-JSON chunk (exercising the raw-content wrapper). -/
theorem context_assembler_preserves_records_witness :
    (1 < ([⟨"1", []⟩, ⟨"not json", []⟩] : List Document).length) ∧
    (1 < (contextLogs [⟨"1", []⟩, ⟨"not json", []⟩]).length) ∧
    ((contextLogs [⟨"1", []⟩, ⟨"not json", []⟩]).length =
        ([⟨"1", []⟩, ⟨"not json", []⟩] : List Document).length ∧
      (contextLogs [⟨"1", []⟩, ⟨"not json", []⟩]).get ⟨1, by decide⟩ =
        (match parse ((([⟨"1", []⟩, ⟨"not json", []⟩] : List Document).get
            ⟨1, by decide⟩).page_content) with
         | some log_data => log_data
         | none => Json.obj [("raw_content",
            Json.str ((([⟨"1", []⟩, ⟨"not json", []⟩] : List Document).get
              ⟨1, by decide⟩).page_content))])) :=
  ⟨by decide, by decide,
    context_assembler_preserves_records [⟨"1", []⟩, ⟨"not json", []⟩] 1 (by decide) (by decide)⟩

/-- C7: round trip — for every well-formed JSON value (objects with
pairwise-distinct keys, as produced by `json.load`), parsing the
serialized text at assembly time recovers the same structural value:
`parse (serialize x) = some x`. -/
theorem json_serialize_parse_roundtrip (x : Json) (h : wfB x = true) :
    parse (serialize x) = some x :=
  parse_serialize x h

/-- Witness for C7 on a concrete log object. -/
theorem json_serialize_parse_roundtrip_witness :
    wfB (Json.obj [("level", Json.str "ERROR"), ("msg", Json.str "timeout")]) = true ∧
    parse (serialize (Json.obj [("level", Json.str "ERROR"), ("msg", Json.str "timeout")])) =
      some (Json.obj [("level", Json.str "ERROR"), ("msg", Json.str "timeout")]) :=
  ⟨rfl, json_serialize_parse_roundtrip
    (Json.obj [("level", Json.str "ERROR"), ("msg", Json.str "timeout")]) rfl⟩

/-- C8 counterexample: `analyze_logs_with_agent` writes the API key into
the process-wide environment (`os.environ["OPENAI_API_KEY"] = api_key`,
line 58 of `agent.py`), so the claim that no core operation stores the
credential in ambient global mutable state is false: starting from an
empty environment, the variable is set after the call. -/
theorem api_key_not_persisted_counterexample :
    ¬ (∀ (run_sync : String → Except String LogAnalysisResponse) (question : String)
        (chunks : List Document) (api_key : String) (env : Env),
        (analyze_logs_with_agent run_sync question chunks api_key env).2 = env) := by
  intro hclaim
  have h := congrFun (hclaim (fun _ => Except.error "e") "q" [] "sk-test" (fun _ => none))
    "OPENAI_API_KEY"
  have heval : (analyze_logs_with_agent (fun _ => Except.error "e") "q" [] "sk-test"
      (fun _ => none)).2 "OPENAI_API_KEY" = some "sk-test" := rfl
  rw [heval] at h
  exact Option.noConfusion h

/-- C8 amended: on every call (success or failure of the provider),
`analyze_logs_with_agent` persists the caller's API key in the ambient
environment under `OPENAI_API_KEY`. -/
theorem api_key_stored_in_env
    (run_sync : String → Except String LogAnalysisResponse) (question : String)
    (chunks : List Document) (api_key : String) (env : Env) :
    (analyze_logs_with_agent run_sync question chunks api_key env).2 "OPENAI_API_KEY" =
      some api_key := by
  simp only [analyze_logs_with_agent]
  cases hrs : run_sync (contextText question (contextLogs chunks)) <;> simp [setEnv]

/-- C9: the vector store search (modelled from the spec's contract for
the external ChromaDB `similarity_search`) returns at most k results for
k in [1, store size], each drawn from the stored chunks, ordered by
non-increasing similarity to the query; on the query path
`get_relevant_chunks` returns exactly these results when the store call
succeeds. -/
theorem search_topk_sorted (sim : String → String → Int) (store : Store)
    (q api_key : String) (k : Nat) (hk1 : 1 ≤ k) (hk2 : k ≤ store.length) :
    (similaritySearch sim store q k).length ≤ k ∧
    (∀ d ∈ similaritySearch sim store q k, d ∈ store) ∧
    List.Sorted (fun a b => sim q b.page_content ≤ sim q a.page_content)
      (similaritySearch sim store q k) ∧
    get_relevant_chunks (fun _ q2 k2 => Except.ok (similaritySearch sim store q2 k2))
      q api_key k = similaritySearch sim store q k := by
  refine ⟨?_, ?_, ?_, rfl⟩
  · unfold similaritySearch
    rw [List.length_take]
    exact min_le_left _ _
  · intro d hd
    unfold similaritySearch at hd
    have hd2 := List.take_subset _ _ hd
    exact ((List.perm_insertionSort _ store).mem_iff).mp hd2
  · haveI : IsTotal Document (fun a b => sim q b.page_content ≤ sim q a.page_content) :=
      ⟨fun a b => le_total _ _⟩
    haveI : IsTrans Document (fun a b => sim q b.page_content ≤ sim q a.page_content) :=
      ⟨fun a b c hab hbc => le_trans hbc hab⟩
    have hs := List.sorted_insertionSort
      (fun a b : Document => sim q b.page_content ≤ sim q a.page_content) store
    unfold similaritySearch
    exact List.Pairwise.sublist (List.take_sublist _ _) hs

/-- Witness for C9 on a concrete one-element store with k = 1. -/
theorem search_topk_sorted_witness :
    (1 ≤ 1 ∧ 1 ≤ ([⟨"a", []⟩] : Store).length) ∧
    ((similaritySearch (fun _ _ => 0) [⟨"a", []⟩] "q" 1).length ≤ 1 ∧
      (∀ d ∈ similaritySearch (fun _ _ => 0) [⟨"a", []⟩] "q" 1, d ∈ ([⟨"a", []⟩] : Store)) ∧
      List.Sorted (fun a b => (fun _ _ => (0 : Int)) "q" b.page_content ≤
        (fun _ _ => (0 : Int)) "q" a.page_content)
        (similaritySearch (fun _ _ => 0) [⟨"a", []⟩] "q" 1) ∧
      get_relevant_chunks (fun _ q2 k2 =>
        Except.ok (similaritySearch (fun _ _ => 0) [⟨"a", []⟩] q2 k2)) "q" "sk" 1 =
        similaritySearch (fun _ _ => 0) [⟨"a", []⟩] "q" 1) :=
  ⟨⟨by decide, by decide⟩,
    search_topk_sorted (fun _ _ => 0) [⟨"a", []⟩] "q" "sk" 1 (by decide) (by decide)⟩

/-- C10: on the query path the Analysis Agent is never invoked with an
empty retrieval result: whenever `get_relevant_chunks` returns the empty
list (which includes every internally-raising retrieval, per the amended
C2), the handler shows the "no relevant logs" outcome, produces no
`AnalysisResponse`, and leaves the environment untouched — for every
possible provider. -/
theorem agent_not_called_on_empty_retrieval
    (search_impl : String → String → Nat → Except String (List Document))
    (run_sync : String → Except String LogAnalysisResponse)
    (question api_key : String) (k : Nat) (env : Env)
    (h : get_relevant_chunks search_impl question api_key k = []) :
    analyzeLogsTab search_impl run_sync question api_key k env =
      (AnalysisOutcome.noRelevantLogs, env) := by
  simp [analyzeLogsTab, h]

/-- Witness for C10 on a concrete empty retrieval. -/
theorem agent_not_called_on_empty_retrieval_witness :
    get_relevant_chunks (fun _ _ _ => Except.ok ([] : List Document)) "q" "sk" 5 = [] ∧
    analyzeLogsTab (fun _ _ _ => Except.ok ([] : List Document))
      (fun _ => Except.ok ⟨"ans", [], 0⟩) "q" "sk" 5 (fun _ => none) =
      (AnalysisOutcome.noRelevantLogs, fun _ => none) :=
  ⟨rfl, agent_not_called_on_empty_retrieval (fun _ _ _ => Except.ok [])
    (fun _ => Except.ok ⟨"ans", [], 0⟩) "q" "sk" 5 (fun _ => none) rfl⟩

-- Concrete sanity checks of the serializer and parser models.
example : serialize (Json.arr [Json.num 1, Json.num (-2)]) = "[1, -2]" := by rfl
example : serialize (Json.obj [("a", Json.str "b\nc")]) =
    String.mk ['\x7b', '\"', 'a', '\"', ':', ' ', '\"', 'b', '\\', 'n', 'c', '\"', '\x7d'] := by rfl
example : serialize (Json.str "π") = String.mk ['\"', '\\', 'u', '0', '3', 'c', '0', '\"'] := by rfl
example : parse "[1, 2]" = some (Json.arr [Json.num 1, Json.num 2]) := by rfl
example : parse "null" = some Json.null := by rfl
example : parse "not json" = none := by rfl
example : parse " \x7b\"a\": [true, -7], \"b\": \"x\\n\"\x7d " =
    some (Json.obj [("a", Json.arr [Json.bool true, Json.num (-7)]), ("b", Json.str "x\n")]) := by rfl
example : parse "01" = none := by rfl
example : parse "[1" = none := by rfl
